import Mathlib

/-!
Verification of the diagnostic-client ingest and fan-out engine.

This file gives a shallow embedding of the tunnel handler
(`internal/tunnel/handler.go`), the ingest server accept loop
(`internal/tunnel/server.go`), the log bulk insert
(`internal/db/operations.go`) and the subscriber write pump
(websocket handler), and proves the testable properties stated about
them.

Go maps are modelled as association lists with unique keys
(`FileMap`); a Go `map` insert overwrites, and deletion removes the
key.  Go `time.Time` instants are modelled as integers, and the
channels that carry fan-out events are modelled as bounded queues
whose non-blocking send either appends or drops.
-/

namespace Diag

/-- `models.FileNode` from `pkg/models/models.go`. -/
structure FileNode where
  path : String
  parentPath : String
  name : String
  isDirectory : Bool
  size : Int
  modTime : Int
  isGzipped : Bool
  isScraped : Bool
deriving DecidableEq, Repr

/-- `models.LogEntry` from `pkg/models/models.go` (the surrogate id is
storage-assigned and never read by the relay, so it is omitted). -/
structure LogEntry where
  filename : String
  line : String
  lineNum : Int
  timestamp : Int
  level : String
deriving DecidableEq, Repr

/-- `models.NetworkPacket` from `pkg/models/models.go`. -/
structure NetworkPacket where
  timestamp : Int
  protocol : String
  srcIP : String
  dstIP : String
  srcPort : Int
  dstPort : Int
  length : Int
  payloadSize : Int
  tcpFlags : String
deriving DecidableEq, Repr

/-- The in-memory file mirror `FileCache.files : map[string]models.FileNode`,
modelled as an association list; map-ness is the `(mapKeys m).Nodup`
hypothesis carried by the theorems. -/
abbrev FileMap := List (String × FileNode)

/-- Lookup in a Go map: `v, ok := m[k]`. -/
def mapLookup : FileMap → String → Option FileNode
  | [], _ => none
  | e :: t, k => if e.1 = k then some e.2 else mapLookup t k

/-- Deletion from a Go map: `delete(m, k)`. -/
def mapErase : FileMap → String → FileMap
  | [], _ => []
  | e :: t, k => if e.1 = k then mapErase t k else e :: mapErase t k

/-- Insertion into a Go map: `m[k] = v` (overwrites any prior binding). -/
def mapInsert (m : FileMap) (k : String) (v : FileNode) : FileMap :=
  (k, v) :: mapErase m k

/-- The key set of the modelled map. -/
def mapKeys (m : FileMap) : List String :=
  m.map Prod.fst

@[simp] theorem mapLookup_nil (k : String) : mapLookup [] k = none := rfl

@[simp] theorem mapLookup_cons (e : String × FileNode) (t : FileMap) (k : String) :
    mapLookup (e :: t) k = if e.1 = k then some e.2 else mapLookup t k := rfl

@[simp] theorem mapKeys_nil : mapKeys [] = [] := rfl

@[simp] theorem mapKeys_cons (e : String × FileNode) (t : FileMap) :
    mapKeys (e :: t) = e.1 :: mapKeys t := rfl

theorem mapLookup_erase (m : FileMap) (k p : String) :
    mapLookup (mapErase m k) p = if p = k then none else mapLookup m p := by
  induction m with
  | nil => simp [mapErase]
  | cons e t ih =>
    simp only [mapErase]
    by_cases h1 : e.1 = k
    · rw [if_pos h1, ih]
      by_cases h2 : p = k
      · simp [h2]
      · have h3 : ¬ e.1 = p := fun hh => h2 (hh.symm.trans h1)
        simp [h2, h3]
    · rw [if_neg h1]
      by_cases h2 : e.1 = p
      · have h3 : ¬ p = k := fun hh => h1 (h2.trans hh)
        simp [h2, h3]
      · simp [h2, ih]

theorem mapLookup_insert (m : FileMap) (k p : String) (v : FileNode) :
    mapLookup (mapInsert m k v) p = if p = k then some v else mapLookup m p := by
  by_cases h : p = k
  · subst h
    simp [mapInsert]
  · have h2 : ¬ k = p := fun hh => h hh.symm
    simp [mapInsert, mapLookup_erase, h, h2]

theorem mem_keys_iff_isSome (m : FileMap) (p : String) :
    p ∈ mapKeys m ↔ (mapLookup m p).isSome := by
  induction m with
  | nil => simp
  | cons e t ih =>
    by_cases h : e.1 = p
    · simp [h]
    · have h2 : ¬ p = e.1 := fun hh => h hh.symm
      simp [h, h2, ih]

theorem mapLookup_eq_none_iff (m : FileMap) (p : String) :
    mapLookup m p = none ↔ p ∉ mapKeys m := by
  rw [mem_keys_iff_isSome, ← Option.not_isSome_iff_eq_none]

theorem mem_of_mapLookup {m : FileMap} {p : String} {v : FileNode}
    (h : mapLookup m p = some v) : (p, v) ∈ m := by
  induction m with
  | nil => simp at h
  | cons e t ih =>
    obtain ⟨a, b⟩ := e
    by_cases h1 : a = p
    · rw [mapLookup_cons, if_pos h1] at h
      injection h with h2
      subst h1 h2
      exact List.mem_cons_self _ _
    · rw [mapLookup_cons, if_neg h1] at h
      exact List.mem_cons_of_mem _ (ih h)

theorem mapLookup_of_mem_nodup {m : FileMap} {p : String} {v : FileNode}
    (hn : (mapKeys m).Nodup) (h : (p, v) ∈ m) : mapLookup m p = some v := by
  induction m with
  | nil => simp at h
  | cons e t ih =>
    rcases List.mem_cons.mp h with h | h
    · simp [← h]
    · have hk : p ∈ mapKeys t := List.mem_map_of_mem Prod.fst h
      have he : ¬ e.1 = p := by
        intro hep
        exact (List.nodup_cons.mp hn).1 (hep ▸ hk)
      simp [he, ih (List.nodup_cons.mp hn).2 h]

theorem mapErase_sublist (m : FileMap) (k : String) :
    List.Sublist (mapErase m k) m := by
  induction m with
  | nil => simp [mapErase]
  | cons e t ih =>
    by_cases h : e.1 = k
    · simpa [mapErase, h] using ih.cons e
    · simpa [mapErase, h] using ih.cons₂ e

theorem mapKeys_erase_sublist (m : FileMap) (k : String) :
    List.Sublist (mapKeys (mapErase m k)) (mapKeys m) :=
  (mapErase_sublist m k).map Prod.fst

theorem nodupKeys_erase {m : FileMap} (hn : (mapKeys m).Nodup) (k : String) :
    (mapKeys (mapErase m k)).Nodup :=
  hn.sublist (mapKeys_erase_sublist m k)

theorem not_mem_keys_erase_self (m : FileMap) (k : String) :
    k ∉ mapKeys (mapErase m k) := by
  rw [← mapLookup_eq_none_iff, mapLookup_erase]
  simp

theorem nodupKeys_insert {m : FileMap} (hn : (mapKeys m).Nodup)
    (k : String) (v : FileNode) : (mapKeys (mapInsert m k v)).Nodup := by
  simpa [mapInsert] using
    List.Nodup.cons (not_mem_keys_erase_self m k) (nodupKeys_erase hn k)

theorem mem_of_mem_erase {m : FileMap} {k : String} {e : String × FileNode}
    (h : e ∈ mapErase m k) : e ∈ m :=
  (mapErase_sublist m k).mem h

theorem mapErase_eq_filter (m : FileMap) (k : String) :
    mapErase m k = m.filter (fun e => decide (¬ e.1 = k)) := by
  induction m with
  | nil => rfl
  | cons e t ih =>
    by_cases h : e.1 = k <;> simp [mapErase, h, ih, List.filter_cons]

/-- `fileChanges` from `internal/tunnel/handler.go`. -/
structure FileChanges where
  added : List FileNode
  updated : List FileNode
  deleted : List String
deriving DecidableEq, Repr

/-- `(*fileChanges).isEmpty` from `internal/tunnel/handler.go`. -/
def FileChanges.isEmpty (c : FileChanges) : Bool :=
  c.added.isEmpty && c.updated.isEmpty && c.deleted.isEmpty

/-- `isFileChanged` from `internal/tunnel/handler.go`: the four material
fields. -/
def isFileChanged (a b : FileNode) : Bool :=
  a.modTime != b.modTime || a.size != b.size ||
    a.isDirectory != b.isDirectory || a.isGzipped != b.isGzipped

theorem isFileChanged_self (a : FileNode) : isFileChanged a a = false := by
  simp [isFileChanged]

/-- The `newFileMap` built by `detectFileChanges`:
`for _, file := range newFiles { newFileMap[file.Path] = file }`
(a later duplicate path overwrites an earlier one). -/
def buildNewFileMap (newFiles : List FileNode) : FileMap :=
  newFiles.foldl (fun m f => mapInsert m f.path f) []

/-- The mirror walk inside `detectFileChanges`:
`for path, existingFile := range h.fileCache.files { ... }`, classifying
updates and deletions and removing matched paths from `newFileMap`. -/
def detectWalk : FileMap → FileChanges → FileMap → FileChanges × FileMap
  | [], c, nm => (c, nm)
  | (path, existingFile) :: rest, c, nm =>
    match mapLookup nm path with
    | some newFile =>
      let c' := if isFileChanged existingFile newFile then
          { c with updated := c.updated ++ [newFile] } else c
      detectWalk rest c' (mapErase nm path)
    | none =>
      detectWalk rest { c with deleted := c.deleted ++ [path] } nm

/-- `detectFileChanges` from `internal/tunnel/handler.go`: after the walk
every record remaining in `newFileMap` is appended to `added`. -/
def detectFileChanges (mirror : FileMap) (newFiles : List FileNode) : FileChanges :=
  let r := detectWalk mirror ⟨[], [], []⟩ (buildNewFileMap newFiles)
  { r.1 with added := r.1.added ++ r.2.map Prod.snd }

/-- `updateFileCache` from `internal/tunnel/handler.go`: apply deletions,
then write `append(changes.added, changes.updated...)`. -/
def updateFileCache (mirror : FileMap) (c : FileChanges) : FileMap :=
  let m := c.deleted.foldl (fun m p => mapErase m p) mirror
  (c.added ++ c.updated).foldl (fun m f => mapInsert m f.path f) m

/-- A bulk storage call issued by `applyFileChanges`; the `db` methods
issue no SQL for an empty argument list, so no call is recorded then. -/
inductive FsCall
  | deleteFiles (paths : List String)
  | saveFiles (files : List FileNode)
  | updateFiles (files : List FileNode)
deriving DecidableEq, Repr

/-- `applyFileChanges` from `internal/tunnel/handler.go` on the path where
every storage call succeeds: issue delete, then save, then update, then
`updateFileCache`. -/
def applyFileChanges (mirror : FileMap) (c : FileChanges) :
    FileMap × List FsCall :=
  (updateFileCache mirror c,
    (if c.deleted.isEmpty then [] else [FsCall.deleteFiles c.deleted]) ++
      (if c.added.isEmpty then [] else [FsCall.saveFiles c.added]) ++
      (if c.updated.isEmpty then [] else [FsCall.updateFiles c.updated]))

/-- `handleFileList` from `internal/tunnel/handler.go` on the path where
every storage call succeeds: returns the new mirror and the storage calls
issued. -/
def handleFileList (mirror : FileMap) (newFiles : List FileNode) :
    FileMap × List FsCall :=
  let changes := detectFileChanges mirror newFiles
  if changes.isEmpty then (mirror, [])
  else applyFileChanges mirror changes

/-- The mirror after one successful snapshot application. -/
def applySnapshot (mirror : FileMap) (newFiles : List FileNode) : FileMap :=
  (handleFileList mirror newFiles).1

/-- Closed form of the `updated` classification of the walk. -/
def walkUpd (nm : FileMap) (ms : FileMap) : List FileNode :=
  ms.filterMap (fun e =>
    match mapLookup nm e.1 with
    | some nf => if isFileChanged e.2 nf then some nf else none
    | none => none)

/-- Closed form of the `deleted` classification of the walk. -/
def walkDel (nm : FileMap) (ms : FileMap) : List String :=
  (ms.filter (fun e => (mapLookup nm e.1).isNone)).map Prod.fst

/-- Closed form of what remains of `newFileMap` after the walk. -/
def walkRem (nm : FileMap) (ms : FileMap) : FileMap :=
  nm.filter (fun e => decide (e.1 ∉ mapKeys ms))

theorem walkRem_nil (nm : FileMap) : walkRem nm [] = nm := by
  rw [walkRem]
  exact List.filter_eq_self.mpr (by intro a _; simp)

theorem walkUpd_erase {rest : FileMap} {p : String} (nm : FileMap)
    (hp : p ∉ mapKeys rest) :
    walkUpd (mapErase nm p) rest = walkUpd nm rest :=
  List.filterMap_congr (fun e he => by
    have h1 : ¬ e.1 = p := fun hh => hp (hh ▸ List.mem_map_of_mem Prod.fst he)
    rw [mapLookup_erase, if_neg h1])

theorem walkDel_erase {rest : FileMap} {p : String} (nm : FileMap)
    (hp : p ∉ mapKeys rest) :
    walkDel (mapErase nm p) rest = walkDel nm rest := by
  have h : rest.filter (fun e => (mapLookup (mapErase nm p) e.1).isNone) =
      rest.filter (fun e => (mapLookup nm e.1).isNone) :=
    List.filter_congr (fun e he => by
      have h1 : ¬ e.1 = p := fun hh => hp (hh ▸ List.mem_map_of_mem Prod.fst he)
      rw [mapLookup_erase, if_neg h1])
  rw [walkDel, walkDel, h]

theorem walkRem_cons (nm : FileMap) (p : String) (f : FileNode) (rest : FileMap) :
    walkRem nm ((p, f) :: rest) = walkRem (mapErase nm p) rest := by
  rw [walkRem, walkRem, mapErase_eq_filter, List.filter_filter]
  apply List.filter_congr
  intro e _
  by_cases h1 : e.1 = p <;> by_cases h2 : e.1 ∈ mapKeys rest <;>
    simp [h1, h2]

theorem walkRem_cons_of_none {nm : FileMap} {p : String} (f : FileNode)
    (rest : FileMap) (h : mapLookup nm p = none) :
    walkRem nm ((p, f) :: rest) = walkRem nm rest := by
  apply List.filter_congr
  intro e he
  have h1 : ¬ e.1 = p := by
    intro hep
    have h2 : (mapLookup nm e.1).isSome :=
      (mem_keys_iff_isSome nm e.1).mp (List.mem_map_of_mem Prod.fst he)
    rw [hep, h] at h2
    simp at h2
  by_cases h2 : e.1 ∈ mapKeys rest <;> simp [h1, h2]

theorem detectWalk_eq (ms : FileMap) : ∀ (c : FileChanges) (nm : FileMap),
    (mapKeys ms).Nodup →
    detectWalk ms c nm =
      ({ added := c.added,
         updated := c.updated ++ walkUpd nm ms,
         deleted := c.deleted ++ walkDel nm ms }, walkRem nm ms) := by
  induction ms with
  | nil =>
    intro c nm _
    simp [detectWalk, walkUpd, walkDel, walkRem_nil]
  | cons e rest ih =>
    obtain ⟨p, f⟩ := e
    intro c nm hn
    have hp : p ∉ mapKeys rest := (List.nodup_cons.mp hn).1
    have hr : (mapKeys rest).Nodup := (List.nodup_cons.mp hn).2
    cases h : mapLookup nm p with
    | some nf =>
      simp only [detectWalk, h]
      rw [ih _ _ hr, walkUpd_erase nm hp, walkDel_erase nm hp,
        ← walkRem_cons nm p f rest]
      have hupd : walkUpd nm ((p, f) :: rest) =
          (if isFileChanged f nf then [nf] else []) ++ walkUpd nm rest := by
        by_cases hc : isFileChanged f nf <;>
          simp [walkUpd, List.filterMap_cons, h, hc]
      have hdel : walkDel nm ((p, f) :: rest) = walkDel nm rest := by
        simp [walkDel, List.filter_cons, h]
      rw [hupd, hdel]
      by_cases hc : isFileChanged f nf <;> simp [hc]
    | none =>
      simp only [detectWalk, h]
      rw [ih _ _ hr, walkRem_cons_of_none f rest h]
      have hupd : walkUpd nm ((p, f) :: rest) = walkUpd nm rest := by
        simp [walkUpd, List.filterMap_cons, h]
      have hdel : walkDel nm ((p, f) :: rest) = p :: walkDel nm rest := by
        simp [walkDel, List.filter_cons, h]
      rw [hupd, hdel]
      simp

theorem build_keyInv : ∀ (s : List FileNode) (acc : FileMap),
    (∀ e ∈ acc, e.1 = e.2.path) →
    ∀ e ∈ s.foldl (fun m f => mapInsert m f.path f) acc, e.1 = e.2.path := by
  intro s
  induction s with
  | nil => intro acc h; exact h
  | cons f t ih =>
    intro acc h
    refine ih (mapInsert acc f.path f) ?_
    intro e he
    rcases List.mem_cons.mp he with he | he
    · rw [he]
    · exact h e (mem_of_mem_erase he)

theorem keyInv_buildNewFileMap (s : List FileNode) :
    ∀ e ∈ buildNewFileMap s, e.1 = e.2.path :=
  build_keyInv s [] (by intro e he; simp at he)

theorem nodupKeys_build : ∀ (s : List FileNode) (acc : FileMap),
    (mapKeys acc).Nodup →
    (mapKeys (s.foldl (fun m f => mapInsert m f.path f) acc)).Nodup := by
  intro s
  induction s with
  | nil => intro acc h; exact h
  | cons f t ih => intro acc h; exact ih _ (nodupKeys_insert h f.path f)

theorem nodupKeys_buildNewFileMap (s : List FileNode) :
    (mapKeys (buildNewFileMap s)).Nodup :=
  nodupKeys_build s [] (by simp)

theorem mem_keys_insert_iff (m : FileMap) (k p : String) (v : FileNode) :
    p ∈ mapKeys (mapInsert m k v) ↔ p = k ∨ p ∈ mapKeys m := by
  rw [mem_keys_iff_isSome, mapLookup_insert]
  by_cases h : p = k
  · simp [h]
  · simp [h, mem_keys_iff_isSome]

theorem mem_keys_build : ∀ (s : List FileNode) (acc : FileMap) (p : String),
    p ∈ mapKeys (s.foldl (fun m f => mapInsert m f.path f) acc) ↔
      p ∈ s.map (·.path) ∨ p ∈ mapKeys acc := by
  intro s
  induction s with
  | nil => intro acc p; simp
  | cons f t ih =>
    intro acc p
    rw [List.foldl_cons, ih, mem_keys_insert_iff]
    by_cases h : p = f.path <;> simp [h]

theorem mem_keys_buildNewFileMap (s : List FileNode) (p : String) :
    p ∈ mapKeys (buildNewFileMap s) ↔ p ∈ s.map (·.path) := by
  rw [buildNewFileMap, mem_keys_build]
  simp

theorem lookup_build_none_iff (s : List FileNode) (p : String) :
    mapLookup (buildNewFileMap s) p = none ↔ p ∉ s.map (·.path) := by
  rw [mapLookup_eq_none_iff, mem_keys_buildNewFileMap]

theorem lookup_build_path {s : List FileNode} {p : String} {nf : FileNode}
    (h : mapLookup (buildNewFileMap s) p = some nf) : nf.path = p :=
  (keyInv_buildNewFileMap s (p, nf) (mem_of_mapLookup h)).symm

theorem detect_eq {mirror : FileMap} (s : List FileNode)
    (hm : (mapKeys mirror).Nodup) :
    detectFileChanges mirror s =
      { added := (walkRem (buildNewFileMap s) mirror).map Prod.snd,
        updated := walkUpd (buildNewFileMap s) mirror,
        deleted := walkDel (buildNewFileMap s) mirror } := by
  rw [detectFileChanges, detectWalk_eq mirror ⟨[], [], []⟩ _ hm]
  simp

theorem mem_updated {mirror : FileMap} {s : List FileNode} {g : FileNode}
    (hm : (mapKeys mirror).Nodup)
    (hg : g ∈ (detectFileChanges mirror s).updated) :
    mapLookup (buildNewFileMap s) g.path = some g ∧
      ∃ prior, mapLookup mirror g.path = some prior ∧
        isFileChanged prior g = true := by
  rw [detect_eq s hm] at hg
  obtain ⟨e, he, hfe⟩ := List.mem_filterMap.mp hg
  cases hl : mapLookup (buildNewFileMap s) e.1 with
  | none => rw [hl] at hfe; simp at hfe
  | some nf =>
    rw [hl] at hfe
    by_cases hc : isFileChanged e.2 nf = true
    · simp only [hc, if_true] at hfe
      injection hfe with hnf
      rw [hnf] at hl hc
      have hpath : g.path = e.1 := lookup_build_path hl
      refine ⟨hpath ▸ hl, e.2, ?_, ?_⟩
      · rw [hpath]
        exact mapLookup_of_mem_nodup hm (by simpa using he)
      · exact hc
    · simp [hc] at hfe

theorem mem_deleted {mirror : FileMap} {s : List FileNode} {p : String}
    (hm : (mapKeys mirror).Nodup)
    (hd : p ∈ (detectFileChanges mirror s).deleted) :
    (∃ prior, mapLookup mirror p = some prior) ∧
      mapLookup (buildNewFileMap s) p = none := by
  rw [detect_eq s hm] at hd
  obtain ⟨e, he, hfe⟩ := List.mem_map.mp hd
  obtain ⟨hmem, hnone⟩ := List.mem_filter.mp he
  subst hfe
  refine ⟨⟨e.2, mapLookup_of_mem_nodup hm (by simpa using hmem)⟩, ?_⟩
  exact Option.isNone_iff_eq_none.mp (by simpa using hnone)

theorem mem_added {mirror : FileMap} {s : List FileNode} {f : FileNode}
    (hm : (mapKeys mirror).Nodup)
    (ha : f ∈ (detectFileChanges mirror s).added) :
    mapLookup (buildNewFileMap s) f.path = some f ∧
      mapLookup mirror f.path = none := by
  rw [detect_eq s hm] at ha
  obtain ⟨e, he, hfe⟩ := List.mem_map.mp ha
  obtain ⟨hmem, hout⟩ := List.mem_filter.mp he
  have hkey : e.1 = e.2.path := keyInv_buildNewFileMap s e hmem
  subst hfe
  constructor
  · rw [← hkey]
    exact mapLookup_of_mem_nodup (nodupKeys_buildNewFileMap s) (by simpa using hmem)
  · rw [← hkey, mapLookup_eq_none_iff]
    simpa using hout

theorem updated_of {mirror : FileMap} {s : List FileNode} {p : String}
    {old nf : FileNode} (hm : (mapKeys mirror).Nodup)
    (hold : mapLookup mirror p = some old)
    (hnf : mapLookup (buildNewFileMap s) p = some nf)
    (hc : isFileChanged old nf = true) :
    nf ∈ (detectFileChanges mirror s).updated := by
  rw [detect_eq s hm]
  exact List.mem_filterMap.mpr ⟨(p, old), mem_of_mapLookup hold, by
    rw [show ((p, old) : String × FileNode).1 = p from rfl, hnf]
    simp [hc]⟩

theorem deleted_of {mirror : FileMap} {s : List FileNode} {p : String}
    {old : FileNode} (hm : (mapKeys mirror).Nodup)
    (hold : mapLookup mirror p = some old)
    (hn : mapLookup (buildNewFileMap s) p = none) :
    p ∈ (detectFileChanges mirror s).deleted := by
  rw [detect_eq s hm]
  exact List.mem_map.mpr ⟨(p, old),
    List.mem_filter.mpr ⟨mem_of_mapLookup hold, by simp [hn]⟩, rfl⟩

theorem added_of {mirror : FileMap} {s : List FileNode} {p : String}
    {nf : FileNode} (hm : (mapKeys mirror).Nodup)
    (hn : mapLookup mirror p = none)
    (hnf : mapLookup (buildNewFileMap s) p = some nf) :
    nf ∈ (detectFileChanges mirror s).added := by
  rw [detect_eq s hm]
  refine List.mem_map.mpr ⟨(p, nf), List.mem_filter.mpr ⟨mem_of_mapLookup hnf, ?_⟩, rfl⟩
  rw [mapLookup_eq_none_iff] at hn
  simpa using hn

theorem isEmpty_iff (c : FileChanges) :
    c.isEmpty = true ↔ c.added = [] ∧ c.updated = [] ∧ c.deleted = [] := by
  simp [FileChanges.isEmpty, List.isEmpty_iff, and_assoc]

theorem lookup_eraseFold : ∀ (ps : List String) (m : FileMap) (p : String),
    mapLookup (ps.foldl (fun m q => mapErase m q) m) p =
      if p ∈ ps then none else mapLookup m p := by
  intro ps
  induction ps with
  | nil => intro m p; simp
  | cons q t ih =>
    intro m p
    rw [List.foldl_cons, ih, mapLookup_erase]
    by_cases h1 : p ∈ t <;> by_cases h2 : p = q <;> simp [h1, h2]

theorem lookup_insertFold_of_not_mem :
    ∀ (fs : List FileNode) (m : FileMap) (p : String),
    (∀ f ∈ fs, ¬ f.path = p) →
    mapLookup (fs.foldl (fun m f => mapInsert m f.path f) m) p = mapLookup m p := by
  intro fs
  induction fs with
  | nil => intro m p _; rfl
  | cons g t ih =>
    intro m p h
    rw [List.foldl_cons, ih _ _ (fun f hf => h f (List.mem_cons_of_mem _ hf)),
      mapLookup_insert,
      if_neg (fun hh => h g (List.mem_cons_self g t) hh.symm)]

theorem lookup_insertFold_of_mem :
    ∀ (fs : List FileNode) (m : FileMap) (f : FileNode),
    (fs.map (·.path)).Nodup → f ∈ fs →
    mapLookup (fs.foldl (fun m f => mapInsert m f.path f) m) f.path = some f := by
  intro fs
  induction fs with
  | nil => intro m f _ h; simp at h
  | cons g t ih =>
    intro m f hn hf
    rw [List.map_cons] at hn
    rcases List.mem_cons.mp hf with h | h
    · subst h
      have hnot : ∀ f' ∈ t, ¬ f'.path = f.path := by
        intro f' hf' hp
        apply (List.nodup_cons.mp hn).1
        rw [← hp]
        exact List.mem_map_of_mem (·.path) hf'
      rw [List.foldl_cons, lookup_insertFold_of_not_mem t _ _ hnot,
        mapLookup_insert, if_pos rfl]
    · rw [List.foldl_cons]
      exact ih _ _ (List.nodup_cons.mp hn).2 h

theorem nodup_filterMap_keyLike :
    ∀ (l : FileMap) (g : String × FileNode → Option String),
    (∀ e ∈ l, ∀ y, g e = some y → y = e.1) → (mapKeys l).Nodup →
    (l.filterMap g).Nodup := by
  intro l g
  induction l with
  | nil => intro _ _; simp
  | cons e t ih =>
    intro hg hn
    rw [List.filterMap_cons]
    cases hge : g e with
    | none =>
      exact ih (fun e' he' => hg e' (List.mem_cons_of_mem _ he'))
        (List.nodup_cons.mp hn).2
    | some y =>
      refine List.nodup_cons.mpr ⟨?_, ih
        (fun e' he' => hg e' (List.mem_cons_of_mem _ he'))
        (List.nodup_cons.mp hn).2⟩
      intro hmem
      obtain ⟨e', he', hgy⟩ := List.mem_filterMap.mp hmem
      have hy1 : y = e.1 := hg e (List.mem_cons_self e t) y hge
      have hy2 : y = e'.1 := hg e' (List.mem_cons_of_mem _ he') y hgy
      exact (List.nodup_cons.mp hn).1
        (hy1 ▸ hy2 ▸ List.mem_map_of_mem Prod.fst he')

theorem updated_paths_nodup {mirror : FileMap} {s : List FileNode}
    (hm : (mapKeys mirror).Nodup) :
    (((detectFileChanges mirror s).updated).map (·.path)).Nodup := by
  rw [detect_eq s hm]
  show ((walkUpd (buildNewFileMap s) mirror).map (·.path)).Nodup
  rw [walkUpd, List.map_filterMap]
  apply nodup_filterMap_keyLike _ _ _ hm
  intro e _ y hy
  cases hl : mapLookup (buildNewFileMap s) e.1 with
  | none => rw [hl] at hy; simp at hy
  | some nf =>
    rw [hl] at hy
    by_cases hc : isFileChanged e.2 nf = true
    · simp only [hc, if_true, Option.map_some'] at hy
      injection hy with hy
      rw [← hy]
      exact lookup_build_path hl
    · simp [hc] at hy

theorem added_paths_nodup {mirror : FileMap} {s : List FileNode}
    (hm : (mapKeys mirror).Nodup) :
    (((detectFileChanges mirror s).added).map (·.path)).Nodup := by
  rw [detect_eq s hm]
  show (((walkRem (buildNewFileMap s) mirror).map Prod.snd).map (·.path)).Nodup
  rw [List.map_map]
  have hrw : (walkRem (buildNewFileMap s) mirror).map ((·.path) ∘ Prod.snd) =
      mapKeys (walkRem (buildNewFileMap s) mirror) := by
    apply List.map_eq_map_iff.mpr
    intro e he
    have := keyInv_buildNewFileMap s e (List.mem_of_mem_filter he)
    simp [this.symm]
  rw [hrw]
  exact (nodupKeys_buildNewFileMap s).sublist
    ((List.filter_sublist _).map Prod.fst)

theorem addupd_paths_nodup {mirror : FileMap} {s : List FileNode}
    (hm : (mapKeys mirror).Nodup) :
    ((((detectFileChanges mirror s).added ++
        (detectFileChanges mirror s).updated)).map (·.path)).Nodup := by
  rw [List.map_append]
  refine List.Nodup.append (added_paths_nodup hm) (updated_paths_nodup hm) ?_
  intro q hq hq'
  obtain ⟨f, hf, rfl⟩ := List.mem_map.mp hq
  obtain ⟨g, hg, hfg⟩ := List.mem_map.mp hq'
  have h1 := (mem_added hm hf).2
  obtain ⟨_, prior, hp, _⟩ := mem_updated hm hg
  rw [hfg] at hp
  rw [hp] at h1
  cases h1

theorem lookup_update_detect {mirror : FileMap} (s : List FileNode)
    (hm : (mapKeys mirror).Nodup) (p : String) :
    mapLookup (updateFileCache mirror (detectFileChanges mirror s)) p =
      match mapLookup (buildNewFileMap s) p, mapLookup mirror p with
      | none, _ => none
      | some nf, none => some nf
      | some nf, some old =>
          if isFileChanged old nf then some nf else some old := by
  rw [updateFileCache]
  cases h0 : mapLookup (buildNewFileMap s) p with
  | none =>
    have hnotins : ∀ f ∈ (detectFileChanges mirror s).added ++
        (detectFileChanges mirror s).updated, ¬ f.path = p := by
      intro f hf hfp
      rcases List.mem_append.mp hf with hf | hf
      · have h1 := (mem_added hm hf).1
        rw [hfp, h0] at h1
        cases h1
      · have h1 := (mem_updated hm hf).1
        rw [hfp, h0] at h1
        cases h1
    rw [lookup_insertFold_of_not_mem _ _ _ hnotins, lookup_eraseFold]
    cases h1 : mapLookup mirror p with
    | none => by_cases hd : p ∈ (detectFileChanges mirror s).deleted <;>
        simp [hd, h1]
    | some old =>
      have hd : p ∈ (detectFileChanges mirror s).deleted := deleted_of hm h1 h0
      simp [hd]
  | some nf =>
    have hpath : nf.path = p := lookup_build_path h0
    cases h1 : mapLookup mirror p with
    | none =>
      have hin : nf ∈ (detectFileChanges mirror s).added ++
          (detectFileChanges mirror s).updated :=
        List.mem_append_left _ (added_of hm h1 h0)
      have hres := lookup_insertFold_of_mem _
        (((detectFileChanges mirror s).deleted).foldl
          (fun m q => mapErase m q) mirror) _ (addupd_paths_nodup hm) hin
      rw [hpath] at hres
      rw [hres]
    | some old =>
      by_cases hch : isFileChanged old nf = true
      · have hin : nf ∈ (detectFileChanges mirror s).added ++
            (detectFileChanges mirror s).updated :=
          List.mem_append_right _ (updated_of hm h1 h0 hch)
        have hres := lookup_insertFold_of_mem _
          (((detectFileChanges mirror s).deleted).foldl
            (fun m q => mapErase m q) mirror) _ (addupd_paths_nodup hm) hin
        rw [hpath] at hres
        rw [hres]
        simp [hch]
      · have hnotins : ∀ f ∈ (detectFileChanges mirror s).added ++
            (detectFileChanges mirror s).updated, ¬ f.path = p := by
          intro f hf hfp
          rcases List.mem_append.mp hf with hf | hf
          · have h2 := (mem_added hm hf).2
            rw [hfp, h1] at h2
            cases h2
          · obtain ⟨hl, prior, hp, hcg⟩ := mem_updated hm hf
            rw [hfp] at hl hp
            rw [h0] at hl
            rw [h1] at hp
            injection hl with hl
            injection hp with hp
            rw [← hl, ← hp] at hcg
            exact hch hcg
        rw [lookup_insertFold_of_not_mem _ _ _ hnotins, lookup_eraseFold]
        have hd : p ∉ (detectFileChanges mirror s).deleted := by
          intro hd
          have h2 := (mem_deleted hm hd).2
          rw [h0] at h2
          cases h2
        simp [hd, h1, hch]

theorem applySnapshot_lookup {mirror : FileMap} (s : List FileNode)
    (hm : (mapKeys mirror).Nodup) (p : String) :
    mapLookup (applySnapshot mirror s) p =
      match mapLookup (buildNewFileMap s) p, mapLookup mirror p with
      | none, _ => none
      | some nf, none => some nf
      | some nf, some old =>
          if isFileChanged old nf then some nf else some old := by
  rw [applySnapshot, handleFileList]
  by_cases he : (detectFileChanges mirror s).isEmpty = true
  · obtain ⟨ha, hu, hd⟩ := (isEmpty_iff _).mp he
    simp only [he, if_true]
    cases h0 : mapLookup (buildNewFileMap s) p with
    | none =>
      cases h1 : mapLookup mirror p with
      | none => simp [h1]
      | some old =>
        exact absurd (deleted_of hm h1 h0) (by rw [hd]; simp)
    | some nf =>
      cases h1 : mapLookup mirror p with
      | none =>
        exact absurd (added_of hm h1 h0) (by rw [ha]; simp)
      | some old =>
        by_cases hch : isFileChanged old nf = true
        · exact absurd (updated_of hm h1 h0 hch) (by rw [hu]; simp)
        · simp [hch, h1]
  · simp only [he, if_false]
    exact lookup_update_detect s hm p

theorem nodupKeys_eraseFold : ∀ (ps : List String) (m : FileMap),
    (mapKeys m).Nodup →
    (mapKeys (ps.foldl (fun m q => mapErase m q) m)).Nodup := by
  intro ps
  induction ps with
  | nil => intro m h; exact h
  | cons q t ih => intro m h; exact ih _ (nodupKeys_erase h q)

theorem nodupKeys_insertFold : ∀ (fs : List FileNode) (m : FileMap),
    (mapKeys m).Nodup →
    (mapKeys (fs.foldl (fun m f => mapInsert m f.path f) m)).Nodup := by
  intro fs
  induction fs with
  | nil => intro m h; exact h
  | cons g t ih => intro m h; exact ih _ (nodupKeys_insert h g.path g)

theorem nodupKeys_applySnapshot {mirror : FileMap} (s : List FileNode)
    (hm : (mapKeys mirror).Nodup) :
    (mapKeys (applySnapshot mirror s)).Nodup := by
  rw [applySnapshot, handleFileList]
  by_cases he : (detectFileChanges mirror s).isEmpty = true
  · simpa [he] using hm
  · simp only [he, if_false]
    exact nodupKeys_insertFold _ _ (nodupKeys_eraseFold _ _ hm)

theorem nodupKeys_foldl_applySnapshot :
    ∀ (ss : List (List FileNode)) (m : FileMap),
    (mapKeys m).Nodup → (mapKeys (ss.foldl applySnapshot m)).Nodup := by
  intro ss
  induction ss with
  | nil => intro m h; exact h
  | cons s t ih => intro m h; exact ih _ (nodupKeys_applySnapshot s h)

/-! ### Packet batcher (`handleMetrics`, `flushNetworkBatch`,
`periodicNetworkFlush`, `Close`)

The batcher's observable state: the shared buffer `h.networkBatch`, the
bulk-insert calls made (`db.SaveNetworkPackets`), the batches published
on `networkStreamCh`, and the batches lost to a storage failure.  A
flush consults two oracles: `sOk` (did the storage call succeed) and
`qF` (did the non-blocking channel send find room). -/

structure BatcherState where
  networkBatch : List NetworkPacket
  calls : List (List NetworkPacket)
  published : List (List NetworkPacket)
  lost : List (List NetworkPacket)
deriving DecidableEq, Repr

def initBatcher : BatcherState := ⟨[], [], [], []⟩

/-- `flushNetworkBatch` from `internal/tunnel/handler.go`: return at once
on an empty buffer; otherwise swap the buffer for a fresh empty one,
call `SaveNetworkPackets`, and on success offer the batch to
`networkStreamCh` non-blocking (dropping it if the channel is full). -/
def flushNetworkBatch (sOk qF : Bool) (s : BatcherState) : BatcherState :=
  if s.networkBatch.isEmpty then s
  else
    let batch := s.networkBatch
    let s' : BatcherState :=
      { s with networkBatch := [], calls := s.calls ++ [batch] }
    if sOk then
      if qF then { s' with published := s'.published ++ [batch] } else s'
    else { s' with lost := s'.lost ++ [batch] }

/-- `handleMetrics` from `internal/tunnel/handler.go`: append the
envelope's packets under the lock, then flush inline when the buffer
has reached `batchSize`. -/
def handleMetrics (batchSize : Nat) (packets : List NetworkPacket)
    (sOk qF : Bool) (s : BatcherState) : BatcherState :=
  let s' := { s with networkBatch := s.networkBatch ++ packets }
  if batchSize ≤ s'.networkBatch.length then flushNetworkBatch sOk qF s'
  else s'

/-- One event seen by the batcher: a `metrics` envelope, or a tick of the
5-second `periodicNetworkFlush` ticker (the shutdown flush in `Close`
behaves like a tick). -/
inductive BatchEvent
  | envelope (packets : List NetworkPacket) (sOk qF : Bool)
  | tick (sOk qF : Bool)
deriving DecidableEq, Repr

/-- Packets carried by an event (an envelope's packet array). -/
def BatchEvent.packCount : BatchEvent → Nat
  | .envelope ps _ _ => ps.length
  | .tick _ _ => 0

def batcherStep (batchSize : Nat) (s : BatcherState) (ev : BatchEvent) :
    BatcherState :=
  match ev with
  | .envelope ps sOk qF => handleMetrics batchSize ps sOk qF s
  | .tick sOk qF => flushNetworkBatch sOk qF s

def runBatcher (batchSize : Nat) (s : BatcherState)
    (evs : List BatchEvent) : BatcherState :=
  evs.foldl (batcherStep batchSize) s

/-! ### Log relay (`handleLogData` with `db.SaveLogs`) -/

/-- The bounded `logStreamCh` channel (capacity `cfg.LogBufferSize`). -/
structure LogQueue where
  cap : Nat
  items : List LogEntry
deriving DecidableEq, Repr

/-- One non-blocking `select { case ch <- entry: default: }`:
append when there is room, otherwise record the drop. -/
def offerLog (acc : LogQueue × List LogEntry) (e : LogEntry) :
    LogQueue × List LogEntry :=
  if acc.1.items.length < acc.1.cap then
    ({ acc.1 with items := acc.1.items ++ [e] }, acc.2)
  else (acc.1, acc.2 ++ [e])

/-- Result of `handleLogData`: the SQL bulk-insert exec calls issued by
`db.SaveLogs` (none for an empty list — `SaveLogs` returns nil early),
the log fan-out queue afterwards, the entries dropped by the
non-blocking send, and the error returned. -/
structure LogRelayOut where
  execs : List (List LogEntry)
  queue : LogQueue
  droppedQ : List LogEntry
  err : Option String
deriving DecidableEq, Repr

/-- `handleLogData` from `internal/tunnel/handler.go` together with
`db.SaveLogs` from `internal/db/operations.go`: persist the whole list
with one bulk insert (`SaveLogs` issues no SQL for an empty list), and
only on success stream each entry to `logStreamCh` non-blocking. -/
def handleLogData (storageOk : Bool) (q : LogQueue)
    (logs : List LogEntry) : LogRelayOut :=
  if logs.isEmpty then ⟨[], q, [], none⟩
  else if storageOk then
    let r := logs.foldl offerLog (q, [])
    ⟨[logs], r.1, r.2, none⟩
  else ⟨[logs], q, [], some "save logs"⟩

theorem offerLog_foldl : ∀ (logs : List LogEntry) (q : LogQueue)
    (dropped : List LogEntry),
    logs.foldl offerLog (q, dropped) =
      ({ q with items := q.items ++ logs.take (q.cap - q.items.length) },
        dropped ++ logs.drop (q.cap - q.items.length)) := by
  intro logs
  induction logs with
  | nil => intro q dropped; simp
  | cons e t ih =>
    intro q dropped
    rw [List.foldl_cons]
    by_cases h : q.items.length < q.cap
    · rw [show offerLog (q, dropped) e =
          ({ q with items := q.items ++ [e] }, dropped) by
        simp [offerLog, h]]
      rw [ih]
      have htake : q.cap - q.items.length = (q.cap - (q.items.length + 1)) + 1 := by
        omega
      simp only [List.length_append, List.length_singleton]
      rw [htake, List.take_succ_cons, List.drop_succ_cons,
        List.append_assoc, List.singleton_append]
    · rw [show offerLog (q, dropped) e = (q, dropped ++ [e]) by
        simp [offerLog, h]]
      rw [ih]
      have h0 : q.cap - q.items.length = 0 := by omega
      simp [h0]

/-! ### Subscriber write pump (websocket handler) -/

/-- The log-frame filter of `writePump`: a `log` frame is written to the
session exactly when `viewingFile == log.Filename`. -/
def writePumpEmitsLog (viewedFile : String) (entry : LogEntry) : Bool :=
  viewedFile == entry.filename

/-! ### Per-connection reader (`HandleConnection`, `processMessage`) -/

/-- The type tag of a decoded envelope; `unknown` covers every tag other
than `metrics`, `log_list`, `log_data`. -/
inductive MsgKind
  | metrics
  | logList
  | logData
  | unknown (s : String)
deriving DecidableEq, Repr

/-- A decoded envelope together with the outcome of its type-specific
pipeline (storage success or failure), which decides the error returned
by the corresponding handler. -/
structure Msg where
  kind : MsgKind
  handlerOk : Bool
deriving DecidableEq, Repr

/-- `processMessage` from `internal/tunnel/handler.go`: dispatch on the
type tag; an unknown tag is an error regardless of any handler. -/
def processMessage (m : Msg) : Option String :=
  match m.kind with
  | .metrics => if m.handlerOk then none else some "handle metrics"
  | .logList => if m.handlerOk then none else some "apply file changes"
  | .logData => if m.handlerOk then none else some "save logs"
  | .unknown s => some ("unknown message type: " ++ s)

/-- What the connection's JSON decoder yields next: a decode failure or
a decoded envelope. -/
inductive ReadEvent
  | decodeFail
  | decoded (m : Msg)
deriving DecidableEq, Repr

def ReadEvent.isDecodeFail : ReadEvent → Bool
  | .decodeFail => true
  | .decoded _ => false

def ReadEvent.getMsg : ReadEvent → Option Msg
  | .decodeFail => none
  | .decoded m => some m

/-- Observable outcome of the reader loop. -/
structure ConnResult where
  processed : List Msg
  loggedErrors : List String
  closedOnDecode : Bool
deriving DecidableEq, Repr

/-- `HandleConnection` from `internal/tunnel/handler.go` in steady state
(no cancellation): decode envelopes in a loop; a decode error returns
(closing the connection); a processing error is logged and the loop
continues. -/
def HandleConnection : List ReadEvent → ConnResult
  | [] => ⟨[], [], false⟩
  | .decodeFail :: _ => ⟨[], [], true⟩
  | .decoded m :: rest =>
    let r := HandleConnection rest
    { r with
      processed := m :: r.processed,
      loggedErrors :=
        (match processMessage m with
         | some e => [e]
         | none => []) ++ r.loggedErrors }

/-! ### Ingest server accept loop (`Run`, `acceptLoop`) -/

/-- One iteration of `acceptLoop`: either `listener.Accept` returns a
connection, or it fails; a failure carries whether the root context was
already cancelled at that moment (the `select` on `ctx.Done()`). -/
inductive AcceptEvent
  | conn
  | fail (cancelled : Bool) (e : String)
deriving DecidableEq, Repr

/-- `acceptLoop` from `internal/tunnel/server.go`: connections are handed
off and the loop continues; the first accept failure either returns
silently (context already cancelled) or reports
`accept error: <e>` on the error channel and returns. -/
def acceptLoop : List AcceptEvent → Option String
  | [] => none
  | .conn :: rest => acceptLoop rest
  | .fail cancelled e :: _ =>
    if cancelled then none else some ("accept error: " ++ e)

/-- `Run` from `internal/tunnel/server.go`: select between the context
and the accept-error channel; `shutdown` returns whichever error
triggered it, so an accept error is returned as-is and otherwise `Run`
returns the context's error `ctxErr`. -/
def RunServer (evs : List AcceptEvent) (ctxErr : String) : String :=
  match acceptLoop evs with
  | some e => e
  | none => ctxErr

theorem acceptLoop_conns :
    ∀ (pre l : List AcceptEvent), (∀ x ∈ pre, x = AcceptEvent.conn) →
    acceptLoop (pre ++ l) = acceptLoop l := by
  intro pre
  induction pre with
  | nil => intro l _; rfl
  | cons x t ih =>
    intro l h
    have hx : x = AcceptEvent.conn := h x (List.mem_cons_self x t)
    subst hx
    rw [List.cons_append]
    exact ih l (fun y hy => h y (List.mem_cons_of_mem _ hy))

/-- Behaviour of one non-trivial flush: swap the buffer out, record the
storage call, and classify the batch by the two oracles. -/
theorem flushNetworkBatch_spec (sOk qF : Bool) (s : BatcherState)
    (h : s.networkBatch ≠ []) :
    flushNetworkBatch sOk qF s =
      { networkBatch := [],
        calls := s.calls ++ [s.networkBatch],
        published := s.published ++ (if sOk && qF then [s.networkBatch] else []),
        lost := s.lost ++ (if sOk then [] else [s.networkBatch]) } := by
  have hne : s.networkBatch.isEmpty = false := by
    simpa [List.isEmpty_iff] using h
  rw [flushNetworkBatch]
  cases sOk <;> cases qF <;> simp [hne]

/-- Fold invariant of the batcher: between events the buffer stays below
`batchSize`, and every storage call stays below `batchSize + E` when
every envelope carries at most `E` packets. -/
theorem runBatcher_inv : ∀ (evs : List BatchEvent) (batchSize E : Nat)
    (s : BatcherState), 1 ≤ batchSize →
    (∀ ev ∈ evs, ev.packCount ≤ E) →
    s.networkBatch.length < batchSize →
    (∀ c ∈ s.calls, c.length ≤ batchSize - 1 + E) →
    (runBatcher batchSize s evs).networkBatch.length < batchSize ∧
      ∀ c ∈ (runBatcher batchSize s evs).calls,
        c.length ≤ batchSize - 1 + E := by
  intro evs
  induction evs with
  | nil => intro batchSize E s _ _ hbuf hcalls; exact ⟨hbuf, hcalls⟩
  | cons ev t ih =>
    intro batchSize E s hb hE hbuf hcalls
    have hEt : ∀ e ∈ t, BatchEvent.packCount e ≤ E :=
      fun e he => hE e (List.mem_cons_of_mem _ he)
    rw [runBatcher, List.foldl_cons]
    cases ev with
    | envelope ps sOk qF =>
      have hps : ps.length ≤ E := hE _ (List.mem_cons_self _ _)
      show (runBatcher batchSize (handleMetrics batchSize ps sOk qF s) t).networkBatch.length < batchSize ∧
        ∀ c ∈ (runBatcher batchSize (handleMetrics batchSize ps sOk qF s) t).calls,
          c.length ≤ batchSize - 1 + E
      rw [handleMetrics]
      by_cases hle : batchSize ≤ (s.networkBatch ++ ps).length
      · have hne : ({ s with networkBatch := s.networkBatch ++ ps} :
            BatcherState).networkBatch ≠ [] := by
          show s.networkBatch ++ ps ≠ []
          intro hnil
          rw [hnil] at hle
          simp at hle
          omega
        rw [if_pos (by simpa using hle), flushNetworkBatch_spec _ _ _ hne]
        refine ih batchSize E _ hb hEt ?_ ?_
        · simpa using hb
        · intro c hc
          rcases List.mem_append.mp hc with hc | hc
          · exact hcalls c hc
          · have hceq : c = s.networkBatch ++ ps := by simpa using hc
            rw [hceq, List.length_append]
            omega
      · rw [if_neg (by simpa using hle)]
        refine ih batchSize E _ hb hEt ?_ hcalls
        show (s.networkBatch ++ ps).length < batchSize
        omega
    | tick sOk qF =>
      show (runBatcher batchSize (flushNetworkBatch sOk qF s) t).networkBatch.length < batchSize ∧
        ∀ c ∈ (runBatcher batchSize (flushNetworkBatch sOk qF s) t).calls,
          c.length ≤ batchSize - 1 + E
      by_cases hne : s.networkBatch = []
      · have heq : flushNetworkBatch sOk qF s = s := by
          rw [flushNetworkBatch, if_pos (by simpa [List.isEmpty_iff] using hne)]
        rw [heq]
        exact ih batchSize E s hb hEt hbuf hcalls
      · rw [flushNetworkBatch_spec _ _ _ hne]
        refine ih batchSize E _ hb hEt ?_ ?_
        · simpa using hb
        · intro c hc
          rcases List.mem_append.mp hc with hc | hc
          · exact hcalls c hc
          · have hceq : c = s.networkBatch := by simpa using hc
            rw [hceq]
            omega

/-! ### Concrete fixtures used by witnesses and counterexamples -/

def fA : FileNode := ⟨"/a", "/", "a", false, 1, 10, false, false⟩

/-- `fA` with a material change (`size`). -/
def fA2 : FileNode := { fA with size := 2 }

/-- `fA` with only `is_scraped` changed — a non-material change. -/
def fScraped : FileNode := { fA with isScraped := true }

def fB : FileNode := ⟨"/b", "/", "b", false, 3, 11, false, false⟩

def pkt : NetworkPacket := ⟨0, "tcp", "1.1.1.1", "2.2.2.2", 1, 2, 60, 20, "S"⟩

def entryA : LogEntry := ⟨"/a.log", "hello", 1, 0, "info"⟩

/-- A log entry whose `filename` field is the empty string. -/
def entryNoName : LogEntry := ⟨"", "hello", 1, 0, "info"⟩

/-! ### Claims -/

/-- Claim C1: for every mirror state and incoming snapshot, the change
set computed by `detectFileChanges` satisfies: `added`, `updated`,
`deleted` are pairwise disjoint on path; every updated path was present
in the mirror and its new record differs from the prior record on at
least one of `mod_time`, `size`, `is_directory`, `is_gzipped`
(`isFileChanged`); every deleted path was present in the mirror and is
absent from the snapshot; every added path was absent from the mirror. -/
theorem C1_diff_classification (mirror : FileMap) (s : List FileNode)
    (hm : (mapKeys mirror).Nodup) :
    (∀ f ∈ (detectFileChanges mirror s).added,
        ∀ g ∈ (detectFileChanges mirror s).updated, f.path ≠ g.path) ∧
    (∀ f ∈ (detectFileChanges mirror s).added,
        ∀ p ∈ (detectFileChanges mirror s).deleted, f.path ≠ p) ∧
    (∀ g ∈ (detectFileChanges mirror s).updated,
        ∀ p ∈ (detectFileChanges mirror s).deleted, g.path ≠ p) ∧
    (∀ g ∈ (detectFileChanges mirror s).updated,
        ∃ prior, mapLookup mirror g.path = some prior ∧
          isFileChanged prior g = true) ∧
    (∀ p ∈ (detectFileChanges mirror s).deleted,
        (∃ prior, mapLookup mirror p = some prior) ∧ p ∉ s.map (·.path)) ∧
    (∀ f ∈ (detectFileChanges mirror s).added,
        mapLookup mirror f.path = none) := by
  refine ⟨?_, ?_, ?_, ?_, ?_, ?_⟩
  · intro f hf g hg heq
    have h1 := (mem_added hm hf).2
    obtain ⟨_, prior, hp, _⟩ := mem_updated hm hg
    rw [heq, hp] at h1
    cases h1
  · intro f hf p hp heq
    have h1 := (mem_added hm hf).2
    obtain ⟨⟨prior, hpr⟩, _⟩ := mem_deleted hm hp
    rw [heq, hpr] at h1
    cases h1
  · intro g hg p hp heq
    have h1 := (mem_updated hm hg).1
    have h2 := (mem_deleted hm hp).2
    rw [heq, h2] at h1
    cases h1
  · intro g hg
    exact (mem_updated hm hg).2
  · intro p hp
    obtain ⟨hpr, hnone⟩ := mem_deleted hm hp
    exact ⟨hpr, (lookup_build_none_iff s p).mp hnone⟩
  · intro f hf
    exact (mem_added hm hf).2

/-- Witness for C1: mirror `{/a ↦ fA}`, snapshot `[fA2, fB]`
(one material update, one addition). -/
theorem C1_diff_classification_witness :
    (mapKeys [("/a", fA)]).Nodup ∧
    ((∀ f ∈ (detectFileChanges [("/a", fA)] [fA2, fB]).added,
        ∀ g ∈ (detectFileChanges [("/a", fA)] [fA2, fB]).updated,
          f.path ≠ g.path) ∧
     (∀ f ∈ (detectFileChanges [("/a", fA)] [fA2, fB]).added,
        ∀ p ∈ (detectFileChanges [("/a", fA)] [fA2, fB]).deleted,
          f.path ≠ p) ∧
     (∀ g ∈ (detectFileChanges [("/a", fA)] [fA2, fB]).updated,
        ∀ p ∈ (detectFileChanges [("/a", fA)] [fA2, fB]).deleted,
          g.path ≠ p) ∧
     (∀ g ∈ (detectFileChanges [("/a", fA)] [fA2, fB]).updated,
        ∃ prior, mapLookup [("/a", fA)] g.path = some prior ∧
          isFileChanged prior g = true) ∧
     (∀ p ∈ (detectFileChanges [("/a", fA)] [fA2, fB]).deleted,
        (∃ prior, mapLookup [("/a", fA)] p = some prior) ∧
          p ∉ [fA2, fB].map (·.path)) ∧
     (∀ f ∈ (detectFileChanges [("/a", fA)] [fA2, fB]).added,
        mapLookup [("/a", fA)] f.path = none)) :=
  ⟨by decide, C1_diff_classification [("/a", fA)] [fA2, fB] (by decide)⟩

/-- Claim C2 counterexample: starting from the empty mirror, apply the
snapshot `[fA]` and then the snapshot `[fScraped]` (the same record with
only `is_scraped` changed).  All storage calls succeed, yet the mirror
stores `fA`, not the record `fScraped` carried by the most recent
snapshot — so the mirror does not equal the most recent snapshot. -/
theorem C2_mirror_equals_snapshot_cex :
    mapLookup (([[fA], [fScraped]] : List (List FileNode)).foldl
      applySnapshot ([] : FileMap)) "/a" = some fA ∧
    mapLookup (buildNewFileMap [fScraped]) "/a" = some fScraped ∧
    fA ≠ fScraped := by decide

/-- Claim C2 (amended): after any sequence of successful snapshot
applications, the mirror's key set is exactly the path set of the most
recent snapshot, and for every path the stored record agrees with the
most recent snapshot's record on the four material fields (the stored
record may be an older record that differs only in non-material fields
such as `is_scraped`). -/
theorem C2_mirror_tracks_last_snapshot (m0 : FileMap)
    (ss : List (List FileNode)) (s : List FileNode)
    (hm : (mapKeys m0).Nodup) :
    (∀ p, (mapLookup ((ss ++ [s]).foldl applySnapshot m0) p).isSome ↔
        p ∈ s.map (·.path)) ∧
    (∀ p nf, mapLookup (buildNewFileMap s) p = some nf →
        ∃ st, mapLookup ((ss ++ [s]).foldl applySnapshot m0) p = some st ∧
          isFileChanged st nf = false) := by
  have hmid : (mapKeys (ss.foldl applySnapshot m0)).Nodup :=
    nodupKeys_foldl_applySnapshot ss m0 hm
  rw [List.foldl_append]
  simp only [List.foldl_cons, List.foldl_nil]
  constructor
  · intro p
    have hch := applySnapshot_lookup s hmid p
    cases h0 : mapLookup (buildNewFileMap s) p with
    | none =>
      simp only [h0] at hch
      rw [hch]
      simp [(lookup_build_none_iff s p).mp h0]
    | some nf =>
      have hmem : p ∈ s.map (·.path) := by
        have hs : (mapLookup (buildNewFileMap s) p).isSome := by
          rw [h0]; rfl
        exact (mem_keys_buildNewFileMap s p).mp
          ((mem_keys_iff_isSome _ p).mpr hs)
      cases h1 : mapLookup (ss.foldl applySnapshot m0) p with
      | none =>
        simp only [h0, h1] at hch
        rw [hch]
        simp [hmem]
      | some old =>
        simp only [h0, h1] at hch
        by_cases hc : isFileChanged old nf = true
        · rw [if_pos hc] at hch
          rw [hch]
          simp [hmem]
        · rw [if_neg hc] at hch
          rw [hch]
          simp [hmem]
  · intro p nf h0
    have hch := applySnapshot_lookup s hmid p
    cases h1 : mapLookup (ss.foldl applySnapshot m0) p with
    | none =>
      simp only [h0, h1] at hch
      exact ⟨nf, hch, isFileChanged_self nf⟩
    | some old =>
      simp only [h0, h1] at hch
      by_cases hc : isFileChanged old nf = true
      · rw [if_pos hc] at hch
        exact ⟨nf, hch, isFileChanged_self nf⟩
      · rw [if_neg hc] at hch
        refine ⟨old, hch, ?_⟩
        cases hbb : isFileChanged old nf
        · rfl
        · exact absurd hbb hc

/-- Witness for C2 at the one-snapshot sequence `[[fA]]` from the empty
mirror. -/
theorem C2_mirror_tracks_last_snapshot_witness :
    (mapKeys ([] : FileMap)).Nodup ∧
    ((∀ p, (mapLookup ((([] : List (List FileNode)) ++ [[fA]]).foldl
        applySnapshot ([] : FileMap)) p).isSome ↔ p ∈ [fA].map (·.path)) ∧
     (∀ p nf, mapLookup (buildNewFileMap [fA]) p = some nf →
        ∃ st, mapLookup ((([] : List (List FileNode)) ++ [[fA]]).foldl
          applySnapshot ([] : FileMap)) p = some st ∧
            isFileChanged st nf = false)) :=
  ⟨by decide, C2_mirror_tracks_last_snapshot [] [] [fA] (by decide)⟩

/-- Claim C3 counterexample: with `batch_size = 2`, a single metrics
envelope carrying three packets triggers an inline flush whose one
storage call contains three packets — more than `batch_size`. -/
theorem C3_batch_size_cex :
    (runBatcher 2 initBatcher
      [BatchEvent.envelope [pkt, pkt, pkt] true true]).calls =
        [[pkt, pkt, pkt]] ∧
    ¬ (([pkt, pkt, pkt] : List NetworkPacket).length ≤ 2) := by decide

/-- Claim C3 (amended): when every envelope in the sequence carries at
most `E` packets, every storage bulk-insert call issued by a flush
(size-triggered, timer-triggered, or shutdown) contains at most
`batch_size - 1 + E` packets; the buffer never exceeds `batch_size - 1`
between events, so the claimed bound `batch_size` holds only when
envelopes carry at most one packet. -/
theorem C3_flush_size_bound (batchSize E : Nat) (evs : List BatchEvent)
    (hb : 1 ≤ batchSize) (hE : ∀ ev ∈ evs, ev.packCount ≤ E) :
    ∀ c ∈ (runBatcher batchSize initBatcher evs).calls,
      c.length ≤ batchSize - 1 + E :=
  (runBatcher_inv evs batchSize E initBatcher hb hE
    (by simpa [initBatcher] using hb)
    (by intro c hc; simp [initBatcher] at hc)).2

/-- Witness for C3: `batch_size = 2`, envelopes of at most one packet. -/
theorem C3_flush_size_bound_witness :
    (1 ≤ 2) ∧
    (∀ ev ∈ [BatchEvent.envelope [pkt] true true, BatchEvent.tick true true],
      ev.packCount ≤ 1) ∧
    (∀ c ∈ (runBatcher 2 initBatcher
        [BatchEvent.envelope [pkt] true true,
          BatchEvent.tick true true]).calls, c.length ≤ 2 - 1 + 1) :=
  ⟨by decide, by decide,
    C3_flush_size_bound 2 1 _ (by decide) (by decide)⟩

/-- Claim C4: an accept failure in steady state (context not cancelled)
terminates the loop, is reported on the error channel, and `Run`
returns it; an accept failure observed after cancellation is suppressed
(nothing is reported and `Run` returns only the context's own error). -/
theorem C4_accept_error_handling (pre rest : List AcceptEvent)
    (e ctxErr : String) (hpre : ∀ x ∈ pre, x = AcceptEvent.conn) :
    acceptLoop (pre ++ AcceptEvent.fail false e :: rest) =
        some ("accept error: " ++ e) ∧
    RunServer (pre ++ AcceptEvent.fail false e :: rest) ctxErr =
        "accept error: " ++ e ∧
    acceptLoop (pre ++ AcceptEvent.fail true e :: rest) = none ∧
    RunServer (pre ++ AcceptEvent.fail true e :: rest) ctxErr = ctxErr := by
  have h1 := acceptLoop_conns pre (AcceptEvent.fail false e :: rest) hpre
  have h2 := acceptLoop_conns pre (AcceptEvent.fail true e :: rest) hpre
  have hf : acceptLoop (AcceptEvent.fail false e :: rest) =
      some ("accept error: " ++ e) := by
    simp [acceptLoop]
  have ht : acceptLoop (AcceptEvent.fail true e :: rest) = none := by
    simp [acceptLoop]
  refine ⟨h1.trans hf, ?_, h2.trans ht, ?_⟩
  · simp [RunServer, h1, hf]
  · simp [RunServer, h2, ht]

/-- Witness for C4: one successful accept, then a failure. -/
theorem C4_accept_error_handling_witness :
    (∀ x ∈ [AcceptEvent.conn], x = AcceptEvent.conn) ∧
    (acceptLoop ([AcceptEvent.conn] ++ AcceptEvent.fail false "x" :: []) =
        some ("accept error: " ++ "x") ∧
     RunServer ([AcceptEvent.conn] ++ AcceptEvent.fail false "x" :: []) "ctx" =
        "accept error: " ++ "x" ∧
     acceptLoop ([AcceptEvent.conn] ++ AcceptEvent.fail true "x" :: []) = none ∧
     RunServer ([AcceptEvent.conn] ++ AcceptEvent.fail true "x" :: []) "ctx" =
        "ctx") :=
  ⟨by decide, C4_accept_error_handling [AcceptEvent.conn] [] "x" "ctx"
    (by decide)⟩

/-- Claim C5 counterexample: storage succeeds but the fan-out channel is
full, so the batch is not published — "published if and only if the
storage bulk-insert succeeds" fails. -/
theorem C5_publish_iff_cex :
    (flushNetworkBatch true false ⟨[pkt], [], [], []⟩).calls = [[pkt]] ∧
    (flushNetworkBatch true false ⟨[pkt], [], [], []⟩).lost = [] ∧
    (flushNetworkBatch true false ⟨[pkt], [], [], []⟩).published = [] := by
  decide

/-- Claim C5 (amended): for every non-empty flush, the buffer is replaced
by a fresh empty one and the swapped batch becomes exactly one storage
call; it is published iff storage succeeded and the non-blocking send
found room in the fan-out channel; on storage failure it is lost, and in
no case is it retried or re-inserted into the buffer. -/
theorem C5_flush_swap_and_publish (sOk qF : Bool) (s : BatcherState)
    (h : s.networkBatch ≠ []) :
    flushNetworkBatch sOk qF s =
      { networkBatch := [],
        calls := s.calls ++ [s.networkBatch],
        published :=
          s.published ++ (if sOk && qF then [s.networkBatch] else []),
        lost := s.lost ++ (if sOk then [] else [s.networkBatch]) } :=
  flushNetworkBatch_spec sOk qF s h

/-- Witness for C5 at a one-packet buffer with storage success and a
free channel. -/
theorem C5_flush_swap_and_publish_witness :
    ((⟨[pkt], [], [], []⟩ : BatcherState).networkBatch ≠ []) ∧
    flushNetworkBatch true true ⟨[pkt], [], [], []⟩ =
      ⟨[], [[pkt]], [[pkt]], []⟩ :=
  ⟨by decide, C5_flush_swap_and_publish true true ⟨[pkt], [], [], []⟩
    (by decide)⟩

/-- Claim C6 counterexample: an empty `log_data` envelope issues zero
storage bulk-insert execs ('SaveLogs' returns nil before reaching the
database), so "exactly one storage bulk-insert call" fails. -/
theorem C6_single_insert_cex :
    (handleLogData true ⟨10, []⟩ []).execs = [] ∧
    (handleLogData true ⟨10, []⟩ []).execs.length ≠ 1 := by decide

/-- Claim C6 (amended): a `log_data` envelope is persisted by at most
one bulk-insert exec — exactly one when the list is non-empty, none when
it is empty; the relay succeeds iff the list is empty or storage
succeeded; on success each entry is offered individually to the log
fan-out queue non-blocking, so the queue gains exactly the prefix that
fits and the rest is dropped; on failure nothing is enqueued; and a
failing `log_data` message never closes the agent connection. -/
theorem C6_log_relay (q : LogQueue) (logs : List LogEntry) :
    (∀ b, (handleLogData b q logs).execs =
        (if logs.isEmpty then [] else [logs])) ∧
    (∀ b, (handleLogData b q logs).execs.length ≤ 1) ∧
    (∀ b, ((handleLogData b q logs).err = none ↔
        (logs.isEmpty || b) = true)) ∧
    ((handleLogData true q logs).queue.items =
        q.items ++ logs.take (q.cap - q.items.length)) ∧
    ((handleLogData true q logs).droppedQ =
        logs.drop (q.cap - q.items.length)) ∧
    ((handleLogData false q logs).queue = q) ∧
    ((handleLogData false q logs).droppedQ = []) ∧
    (∀ rest, (HandleConnection
        (ReadEvent.decoded ⟨MsgKind.logData, false⟩ :: rest)).closedOnDecode =
      (HandleConnection rest).closedOnDecode) := by
  by_cases hl : logs.isEmpty = true
  · have hnil : logs = [] := List.isEmpty_iff.mp hl
    subst hnil
    refine ⟨?_, ?_, ?_, ?_, ?_, ?_, ?_, ?_⟩ <;>
      first
        | (intro b; simp [handleLogData])
        | simp [handleLogData]
        | (intro rest; rfl)
  · refine ⟨?_, ?_, ?_, ?_, ?_, ?_, ?_, ?_⟩
    · intro b
      cases b <;> simp [handleLogData, hl]
    · intro b
      cases b <;> simp [handleLogData, hl]
    · intro b
      cases b <;> simp [handleLogData, hl]
    · simp [handleLogData, hl, offerLog_foldl]
    · simp [handleLogData, hl, offerLog_foldl]
    · simp [handleLogData, hl]
    · simp [handleLogData, hl]
    · intro rest
      rfl

/-- Claim C7 counterexample: a session whose `viewed_file` is the empty
string still receives the log frame for an entry whose `filename` is the
empty string — the equality filter `viewingFile == log.Filename` does
not unconditionally disable delivery. -/
theorem C7_empty_view_cex :
    writePumpEmitsLog "" entryNoName = true ∧
    entryNoName.filename = "" := by decide

/-- Claim C7 (amended): `writePump` emits a log frame to a session iff
the entry's `filename` equals the session's current `viewed_file`; an
empty `viewed_file` therefore suppresses every log frame except for
entries whose `filename` is itself the empty string. -/
theorem C7_view_filter (v : String) (e : LogEntry) :
    writePumpEmitsLog v e = true ↔ e.filename = v := by
  rw [writePumpEmitsLog]
  constructor
  · intro h
    exact (beq_iff_eq.mp h).symm
  · intro h
    exact beq_iff_eq.mpr h.symm

/-- Claim C8: a snapshot whose computed change set is empty makes the
file pipeline return successfully with no storage call and an unchanged
mirror. -/
theorem C8_empty_changes_no_effect (mirror : FileMap) (s : List FileNode)
    (h : (detectFileChanges mirror s).isEmpty = true) :
    handleFileList mirror s = (mirror, []) := by
  rw [handleFileList]
  simp [h]

/-- Witness for C8: replaying the mirror's own contents as the snapshot
produces an empty change set. -/
theorem C8_empty_changes_no_effect_witness :
    (detectFileChanges [("/a", fA)] [fA]).isEmpty = true ∧
    handleFileList [("/a", fA)] [fA] = ([("/a", fA)], []) :=
  ⟨by decide, C8_empty_changes_no_effect [("/a", fA)] [fA] (by decide)⟩

/-- Claim C9: after a successful application of snapshot `s`, applying
the identical `s` again yields an empty change set, so the second
application touches neither storage nor the mirror. -/
theorem C9_idempotent_replay (mirror : FileMap) (s : List FileNode)
    (hm : (mapKeys mirror).Nodup) :
    (detectFileChanges (applySnapshot mirror s) s).isEmpty = true ∧
    handleFileList (applySnapshot mirror s) s = (applySnapshot mirror s, []) := by
  have hm2 : (mapKeys (applySnapshot mirror s)).Nodup :=
    nodupKeys_applySnapshot s hm
  have hupd : (detectFileChanges (applySnapshot mirror s) s).updated = [] := by
    rw [List.eq_nil_iff_forall_not_mem]
    intro g hg
    obtain ⟨hl, prior, hp, hcg⟩ := mem_updated hm2 hg
    have hch := applySnapshot_lookup s hm g.path
    cases h1 : mapLookup mirror g.path with
    | none =>
      simp only [hl, h1] at hch
      rw [hch] at hp
      injection hp with hp
      rw [← hp, isFileChanged_self] at hcg
      cases hcg
    | some old =>
      by_cases hc : isFileChanged old g = true
      · simp only [hl, h1, hc, if_true] at hch
        rw [hch] at hp
        injection hp with hp
        rw [← hp, isFileChanged_self] at hcg
        cases hcg
      · simp only [hl, h1, hc, if_false] at hch
        rw [hch] at hp
        injection hp with hp
        rw [← hp] at hcg
        exact hc hcg
  have hdel : (detectFileChanges (applySnapshot mirror s) s).deleted = [] := by
    rw [List.eq_nil_iff_forall_not_mem]
    intro p hp
    obtain ⟨⟨prior, hpr⟩, hnone⟩ := mem_deleted hm2 hp
    have hch := applySnapshot_lookup s hm p
    simp only [hnone] at hch
    rw [hch] at hpr
    cases hpr
  have hadd : (detectFileChanges (applySnapshot mirror s) s).added = [] := by
    rw [List.eq_nil_iff_forall_not_mem]
    intro f hf
    obtain ⟨hl, hnone⟩ := mem_added hm2 hf
    have hch := applySnapshot_lookup s hm f.path
    cases h1 : mapLookup mirror f.path with
    | none =>
      simp only [hl, h1] at hch
      rw [hch] at hnone
      cases hnone
    | some old =>
      by_cases hc : isFileChanged old f = true
      · simp only [hl, h1, hc, if_true] at hch
        rw [hch] at hnone
        cases hnone
      · simp only [hl, h1, hc, if_false] at hch
        rw [hch] at hnone
        cases hnone
  have hempty : (detectFileChanges (applySnapshot mirror s) s).isEmpty = true :=
    (isEmpty_iff _).mpr ⟨hadd, hupd, hdel⟩
  refine ⟨hempty, ?_⟩
  rw [handleFileList]
  simp [hempty]

/-- Witness for C9: the empty mirror with the snapshot `[fA]`. -/
theorem C9_idempotent_replay_witness :
    (mapKeys ([] : FileMap)).Nodup ∧
    ((detectFileChanges (applySnapshot [] [fA]) [fA]).isEmpty = true ∧
     handleFileList (applySnapshot [] [fA]) [fA] = (applySnapshot [] [fA], [])) :=
  ⟨by decide, C9_idempotent_replay [] [fA] (by decide)⟩

/-- Claim C10: `processMessage` returns an error for every envelope whose
type is not `metrics`, `log_list` or `log_data`; the reader loop
processes every envelope before the first decode failure regardless of
processing errors (it only logs them), and the connection is closed by
the reader exactly when a decode failure occurs. -/
theorem C10_unknown_type_and_reader :
    (∀ s ok, processMessage ⟨MsgKind.unknown s, ok⟩ =
        some ("unknown message type: " ++ s)) ∧
    (∀ evs, (HandleConnection evs).processed =
        (evs.takeWhile
          (fun ev => !(ReadEvent.isDecodeFail ev))).filterMap
            ReadEvent.getMsg) ∧
    (∀ evs, (HandleConnection evs).closedOnDecode =
        evs.any ReadEvent.isDecodeFail) := by
  refine ⟨fun s ok => rfl, ?_, ?_⟩
  · intro evs
    induction evs with
    | nil => rfl
    | cons ev t ih =>
      cases ev with
      | decodeFail =>
        simp [HandleConnection, ReadEvent.isDecodeFail]
      | decoded m =>
        simp [HandleConnection, ReadEvent.isDecodeFail, ReadEvent.getMsg, ih]
  · intro evs
    induction evs with
    | nil => rfl
    | cons ev t ih =>
      cases ev with
      | decodeFail =>
        simp [HandleConnection, ReadEvent.isDecodeFail]
      | decoded m =>
        simp [HandleConnection, ReadEvent.isDecodeFail, ih]

end Diag
